import Mathlib

/-!
Verification of a gRPC user service (Node.js server `server.js`, client
`client.js`) backed by a PostgreSQL table
`users (id SERIAL PRIMARY KEY, name VARCHAR NOT NULL, email VARCHAR NOT NULL UNIQUE)`.

The service handlers (`createUser`, `getUsers`, `deleteUser`) are embedded as
pure functions over an explicit store state `DB`.  Store calls can fail for
reasons outside the data (connection loss, ...); this is modelled by a
`StoreOracle` argument: `none` means the store infrastructure works and the
call's outcome is determined by the data, `some code` means the store raises
an error whose `code` field is that string (PostgreSQL reports a unique
violation as code "23505", which `createUser` inspects).

JavaScript string primitives used by the handlers (`trim`, `toLowerCase`,
the email regular expression test, and SQL `LIKE` matching with `%`, `_`
and backslash escapes) are embedded over `List Char`.  `toLowerCase` is
modelled on the ASCII range (`Char.toLower`), which covers every character
class the validation logic distinguishes.
-/

namespace GrpcUser

/-- Whitespace class of JavaScript regular expressions and `String.prototype.trim`
(space, tab, LF, VT, FF, CR, NBSP, and the Unicode space separators). -/
def isJsWs (c : Char) : Bool :=
  let n := c.toNat
  n == 32 || n == 9 || n == 10 || n == 11 || n == 12 || n == 13 ||
  n == 160 || n == 5760 || (8192 ≤ n && n ≤ 8202) || n == 8232 ||
  n == 8233 || n == 8239 || n == 8287 || n == 12288 || n == 65279

/-- Embedding of JavaScript `String.prototype.trim`: strip the whitespace
class from both ends. -/
def jsTrim (s : String) : String :=
  ⟨((s.data.dropWhile isJsWs).reverse.dropWhile isJsWs).reverse⟩

/-- Embedding of JavaScript `String.prototype.toLowerCase` on the ASCII
range: lower-case each character. -/
def jsLower (s : String) : String :=
  ⟨s.data.map Char.toLower⟩

/-- Character class `[^\s@]` of the server's email regular expression:
neither whitespace nor the at sign. -/
def isEmailChar (c : Char) : Bool :=
  !(isJsWs c) && c != '@'

/-- Embedding of `isValidEmail` (server.js line 45): test of the anchored
regular expression, one or more non-space-non-at characters, an at sign,
then a domain of non-space-non-at characters containing an interior dot. -/
def isValidEmail (email : String) : Bool :=
  match email.data.dropWhile isEmailChar with
  | c :: dom =>
      !(email.data.takeWhile isEmailChar).isEmpty && c == '@' &&
        !dom.isEmpty && dom.all isEmailChar &&
        ((dom.drop 1).dropLast.contains '.')
  | [] => false

/-- Declarative reading of the same regular expression
(the shape the specification states): the string splits as
`local ++ "@" ++ a ++ "." ++ b` with `local`, `a`, `b` non-empty and made of
`[^\s@]` characters.  Used to check `isValidEmail` against the spec text. -/
def specEmailShape (e : String) : Prop :=
  ∃ locl a b : List Char,
    locl ≠ [] ∧ a ≠ [] ∧ b ≠ [] ∧
    (∀ c ∈ locl, isEmailChar c = true) ∧
    (∀ c ∈ a, isEmailChar c = true) ∧
    (∀ c ∈ b, isEmailChar c = true) ∧
    e.data = locl ++ '@' :: (a ++ '.' :: b)

/-- SQL `LIKE` pattern matching as PostgreSQL implements it: `%` matches any
sequence, `_` matches exactly one character, a backslash escapes the next
pattern character, any other character matches itself. -/
def likeMatch : List Char → List Char → Bool
  | [], s => s.isEmpty
  | p :: ps, s =>
      if p = '%' then s.tails.any (fun t => likeMatch ps t)
      else
        match s with
        | [] => false
        | c :: s2 =>
            if p = '\\' then
              match ps with
              | q :: ps2 => q == c && likeMatch ps2 s2
              | [] => false
            else
              (if p = '_' then true else p == c) && likeMatch ps s2

/-- Executable substring test: `needle` occurs contiguously in `hay`. -/
def containsSub (hay needle : List Char) : Bool :=
  hay.tails.any (fun t => needle.isPrefixOf t)

/-- A pattern character with no special meaning in a `LIKE` pattern. -/
def plainChar (c : Char) : Bool :=
  c != '%' && c != '_' && c != '\\'

/-- Specification-side predicate for the list filter: the record name
contains the (already trimmed) filter as a case-insensitive substring. -/
def specContainsCI (hay needle : String) : Prop :=
  (jsLower needle).data <:+: (jsLower hay).data

/-- A row of the `users` table / a `User` message. -/
structure Record where
  id : Int
  name : String
  email : String
deriving Repr, DecidableEq

/-- State of the `users` table: current rows plus the next value of the
`SERIAL` id sequence. -/
structure DB where
  rows : List Record
  nextId : Int
deriving Repr, DecidableEq

/-- The table right after `initializeDatabase` creates it: no rows, the id
sequence starts at 1. -/
def DB.empty : DB := ⟨[], 1⟩

/-- Comparison used by `ORDER BY id`. -/
def recLe (a b : Record) : Prop := a.id ≤ b.id

instance : DecidableRel recLe := fun a b => Int.decLe a.id b.id

instance : IsTotal Record recLe := ⟨fun a b => Int.le_total a.id b.id⟩

instance : IsTrans Record recLe := ⟨fun _ _ _ h1 h2 => le_trans h1 h2⟩

/-- Result list of `SELECT ... ORDER BY id`. -/
def sortById (l : List Record) : List Record := List.insertionSort recLe l

/-- Store infrastructure outcome injected into a handler call: `none` means
the store works, `some code` means the store call raises an error carrying
that code string. -/
abbrev StoreOracle := Option String

/-- Embedding of `INSERT INTO users (name, email) VALUES ($1, $2) RETURNING
id, name, email` under the `UNIQUE` constraint on `email`: a row whose email
equals the inserted one (exact match) makes the insert raise code "23505";
otherwise the row is appended with the next serial id. -/
def dbInsert (db : DB) (nm em : String) (oracle : StoreOracle) :
    Except String (Record × DB) :=
  match oracle with
  | some code => .error code
  | none =>
      if db.rows.any (fun r => r.email == em) then .error "23505"
      else
        let r : Record := ⟨db.nextId, nm, em⟩
        .ok (r, ⟨db.rows ++ [r], db.nextId + 1⟩)

/-- Embedding of the two `SELECT` queries of `getUsers`: optionally filter by
`LOWER(name) LIKE LOWER($1)`, then `ORDER BY id`. -/
def dbSelect (db : DB) (pat : Option String) (oracle : StoreOracle) :
    Except String (List Record) :=
  match oracle with
  | some code => .error code
  | none =>
      .ok (sortById (match pat with
        | some p => db.rows.filter
            (fun r => likeMatch (jsLower p).data (jsLower r.name).data)
        | none => db.rows))

/-- Embedding of `DELETE FROM users WHERE id = $1 RETURNING id`: reports
whether any row matched and removes the matching rows. -/
def dbDelete (db : DB) (i : Int) (oracle : StoreOracle) :
    Except String (Bool × DB) :=
  match oracle with
  | some code => .error code
  | none =>
      .ok (db.rows.any (fun r => r.id == i),
           ⟨db.rows.filter (fun r => !(r.id == i)), db.nextId⟩)

/-- The four gRPC status/message pairs the handlers produce. -/
inductive GrpcError where
  | invalidArgument (message : String)
  | alreadyExists (message : String)
  | notFound (message : String)
  | internal (message : String)
deriving Repr, DecidableEq

/-- CreateUser request message; with proto-loader `defaults: true` an absent
string field arrives as the empty string. -/
structure CreateUserRequest where
  name : String
  email : String

/-- GetUsers request message; an absent filter arrives as the empty string. -/
structure GetUsersRequest where
  name_filter : String

/-- DeleteUser request message; an absent id arrives as 0. -/
structure DeleteUserRequest where
  id : Int

/-- DeleteUser response message. -/
structure DeleteUserResponse where
  success : Bool
  message : String
deriving Repr, DecidableEq

/-- Embedding of the `createUser` handler (server.js line 51): truthiness
check on both fields, trimmed-name check, email regular-expression check,
then the insert with `name.trim()` and `email.toLowerCase()`; a store error
with code "23505" becomes `ALREADY_EXISTS`, any other store error becomes
`INTERNAL`. -/
def createUser (req : CreateUserRequest) (db : DB) (oracle : StoreOracle) :
    Except GrpcError Record × DB :=
  if req.name == "" || req.email == "" then
    (.error (.invalidArgument "All fields are required"), db)
  else if (jsTrim req.name).length == 0 then
    (.error (.invalidArgument "Name cannot be empty"), db)
  else if !isValidEmail req.email then
    (.error (.invalidArgument "Invalid email format"), db)
  else
    match dbInsert db (jsTrim req.name) (jsLower req.email) oracle with
    | .ok (r, db2) => (.ok r, db2)
    | .error code =>
        if code == "23505" then
          (.error (.alreadyExists "User with this email already exists"), db)
        else
          (.error (.internal "Failed to create user"), db)

/-- Embedding of the `getUsers` handler (server.js line 113): when the filter
is truthy and trims to a non-empty string, select with pattern
`'%' ++ filter.trim() ++ '%'`, otherwise select all; any store error becomes
`INTERNAL`. -/
def getUsers (req : GetUsersRequest) (db : DB) (oracle : StoreOracle) :
    Except GrpcError (List Record) × DB :=
  let pat : Option String :=
    if req.name_filter != "" && (jsTrim req.name_filter).length > 0 then
      some ("%" ++ jsTrim req.name_filter ++ "%")
    else none
  match dbSelect db pat oracle with
  | .ok users => (.ok users, db)
  | .error _ => (.error (.internal "Failed to retrieve users"), db)

/-- Embedding of the `deleteUser` handler (server.js line 151): truthiness
check on the id (so exactly id 0 is rejected), then the delete; no matched
row becomes `NOT_FOUND`, any store error becomes `INTERNAL`. -/
def deleteUser (req : DeleteUserRequest) (db : DB) (oracle : StoreOracle) :
    Except GrpcError DeleteUserResponse × DB :=
  if req.id == 0 then
    (.error (.invalidArgument "User ID is required"), db)
  else
    match dbDelete db req.id oracle with
    | .ok (existed, db2) =>
        if !existed then
          (.error (.notFound ("User with ID " ++ toString req.id ++ " not found")), db2)
        else
          (.ok ⟨true, "User with ID " ++ toString req.id ++ " successfully deleted"⟩, db2)
    | .error _ => (.error (.internal "Failed to delete user"), db)

/-- Observable outcome of one readiness loop: whether a probe succeeded, the
0-based index of the successful probe, how many probes ran, the 1-based
attempt indices logged on failures, and the duration of each sleep
performed (one fixed-delay sleep after every failed probe). -/
structure WaitResult where
  ready : Bool
  successIndex : Option Nat
  attempts : Nat
  logs : List Nat
  sleepsMs : List Nat
deriving Repr, DecidableEq

/-- Shared body of the two readiness loops (`for (let i = 0; i < retries;
i++) try probe / catch log and sleep`), recursing on the remaining budget
with `i` the index of the next probe. -/
def waitLoop (probe : Nat → Bool) (delayMs : Nat) : Nat → Nat → WaitResult
  | _, 0 => ⟨false, none, 0, [], []⟩
  | i, fuel + 1 =>
      if probe i then ⟨true, some i, 1, [], []⟩
      else
        let w := waitLoop probe delayMs (i + 1) fuel
        ⟨w.ready, w.successIndex, w.attempts + 1, (i + 1) :: w.logs, delayMs :: w.sleepsMs⟩

/-- Embedding of `waitForDatabase(retries, delayMs)` (server.js line 192);
`probe i` tells whether the i-th `SELECT 1` succeeds.  An all-failed outcome
corresponds to the thrown "Database did not become ready in time". -/
def waitForDatabase (probe : Nat → Bool) (retries delayMs : Nat) : WaitResult :=
  waitLoop probe delayMs 0 retries

/-- Embedding of `waitForServer(client, maxRetries, delayMs)` (client.js
line 23); `probe i` tells whether the i-th health-check `GetUsers` call
succeeds. -/
def waitForServer (probe : Nat → Bool) (maxRetries delayMs : Nat) : WaitResult :=
  waitLoop probe delayMs 0 maxRetries

/-- Exit status of the server process as determined by its startup path
(server.js `main`): `waitForDatabase(20, 1000)` throwing is caught and leads
to `process.exit(1)`; `none` means startup proceeds. -/
def serverStartupExitCode (probe : Nat → Bool) : Option Nat :=
  if (waitForDatabase probe 20 1000).ready then none else some 1

/-- Exit status of the client process as determined by its startup path
(client.js `main`): `waitForServer(client, 30, 1000)` throwing is caught and
leads to `process.exit(1)`; `none` means the demo proceeds. -/
def clientStartupExitCode (probe : Nat → Bool) : Option Nat :=
  if (waitForServer probe 30 1000).ready then none else some 1

/-- Invariant: every stored email is already in lower case. -/
def EmailsLower (db : DB) : Prop :=
  ∀ r ∈ db.rows, jsLower r.email = r.email

/-- Invariant: no two live rows share an email case-insensitively. -/
def EmailsCIUnique (db : DB) : Prop :=
  List.Pairwise (fun a b : Record => jsLower a.email ≠ jsLower b.email) db.rows

/-- Invariant: no stored email contains a whitespace character. -/
def EmailsNoWs (db : DB) : Prop :=
  ∀ r ∈ db.rows, ∀ c ∈ r.email.data, isJsWs c = false

/-! Character-level facts about the modelled JavaScript primitives. -/

theorem toNat_ofNat_lt {n : Nat} (h : n < 55296) : (Char.ofNat n).toNat = n := by
  have hv : n.isValidChar := Or.inl h
  simp only [Char.ofNat, dif_pos hv, Char.ofNatAux, Char.toNat]
  rfl

theorem char_eq_of_toNat_eq {c d : Char} (h : c.toNat = d.toNat) : c = d := by
  apply Char.ext
  exact UInt32.toNat.inj h

theorem toLower_cases (c : Char) :
    Char.toLower c = c ∨
      (65 ≤ c.toNat ∧ c.toNat ≤ 90 ∧ (Char.toLower c).toNat = c.toNat + 32) := by
  unfold Char.toLower
  by_cases h : c.toNat ≥ 65 ∧ c.toNat ≤ 90
  · right
    rw [if_pos h]
    exact ⟨h.1, h.2, toNat_ofNat_lt (by omega)⟩
  · left
    rw [if_neg h]

theorem toLower_toLower (c : Char) :
    Char.toLower (Char.toLower c) = Char.toLower c := by
  rcases toLower_cases c with h | ⟨h1, h2, h3⟩
  · rw [h, h]
  · rcases toLower_cases (Char.toLower c) with h' | ⟨h1', h2', _⟩
    · exact h'
    · omega

theorem isJsWs_iff (c : Char) :
    isJsWs c = true ↔
      (c.toNat = 32 ∨ c.toNat = 9 ∨ c.toNat = 10 ∨ c.toNat = 11 ∨
       c.toNat = 12 ∨ c.toNat = 13 ∨ c.toNat = 160 ∨ c.toNat = 5760 ∨
       (8192 ≤ c.toNat ∧ c.toNat ≤ 8202) ∨ c.toNat = 8232 ∨
       c.toNat = 8233 ∨ c.toNat = 8239 ∨ c.toNat = 8287 ∨
       c.toNat = 12288 ∨ c.toNat = 65279) := by
  simp only [isJsWs, Bool.or_eq_true, Bool.and_eq_true, beq_iff_eq,
    decide_eq_true_eq]
  omega

theorem isJsWs_toLower (c : Char) : isJsWs (Char.toLower c) = isJsWs c := by
  rcases toLower_cases c with h | ⟨h1, h2, h3⟩
  · rw [h]
  · have e1 : isJsWs (Char.toLower c) = false := by
      rw [Bool.eq_false_iff]
      intro hw
      have := (isJsWs_iff _).mp hw
      omega
    have e2 : isJsWs c = false := by
      rw [Bool.eq_false_iff]
      intro hw
      have := (isJsWs_iff _).mp hw
      omega
    rw [e1, e2]

theorem char_eq_iff_toNat {c d : Char} : c = d ↔ c.toNat = d.toNat :=
  ⟨fun h => by rw [h], char_eq_of_toNat_eq⟩

theorem isEmailChar_toLower (c : Char) :
    isEmailChar (Char.toLower c) = isEmailChar c := by
  unfold isEmailChar
  rw [isJsWs_toLower]
  rcases toLower_cases c with h | ⟨h1, h2, h3⟩
  · rw [h]
  · have ha : (Char.toLower c != '@') = true := by
      simp only [bne_iff_ne, ne_eq]
      intro he
      rw [char_eq_iff_toNat] at he
      rw [show ('@' : Char).toNat = 64 from rfl] at he
      simp only [h3] at he
      omega
    have hb : (c != '@') = true := by
      simp only [bne_iff_ne, ne_eq]
      intro he
      rw [char_eq_iff_toNat] at he
      rw [show ('@' : Char).toNat = 64 from rfl] at he
      omega
    rw [ha, hb]

theorem jsLower_jsLower (s : String) : jsLower (jsLower s) = jsLower s := by
  apply String.ext
  simp only [jsLower, List.map_map]
  exact List.map_congr_left (fun a _ => toLower_toLower a)

theorem isEmailChar_false_at : isEmailChar '@' = false := by decide

theorem isEmailChar_dot : isEmailChar '.' = true := by decide

theorem bnot_eq_true {b : Bool} : ((!b) = true) ↔ b = false := by
  cases b <;> simp

theorem isEmailChar_not_ws {c : Char} (h : isEmailChar c = true) :
    isJsWs c = false := by
  unfold isEmailChar at h
  rw [Bool.and_eq_true] at h
  exact bnot_eq_true.mp h.1

theorem isEmpty_eq_false_iff {α} (l : List α) : l.isEmpty = false ↔ l ≠ [] := by
  cases l <;> simp

/-- Splitting a list at its first element failing a predicate. -/
theorem takeWhile_dropWhile_split {α} (p : α → Bool) (L : List α) (x : α)
    (r : List α) (hL : ∀ c ∈ L, p c = true) (hx : p x = false) :
    (L ++ x :: r).takeWhile p = L ∧ (L ++ x :: r).dropWhile p = x :: r := by
  induction L with
  | nil => simp [List.takeWhile_cons, List.dropWhile_cons, hx]
  | cons a L ih =>
      have pa : p a = true := hL a (List.mem_cons_self a L)
      have hrec := ih (fun c hc => hL c (List.mem_cons_of_mem a hc))
      simp [List.takeWhile_cons, List.dropWhile_cons, pa, hrec.1, hrec.2]

/-- The executable regular-expression test agrees with the declarative
email shape of the specification. -/
theorem isValidEmail_iff (e : String) :
    isValidEmail e = true ↔ specEmailShape e := by
  constructor
  · intro h
    unfold isValidEmail at h
    cases hR : e.data.dropWhile isEmailChar with
    | nil => rw [hR] at h; simp at h
    | cons c dom =>
        rw [hR] at h
        simp only [Bool.and_eq_true, bnot_eq_true, beq_iff_eq,
          List.all_eq_true] at h
        obtain ⟨⟨⟨⟨hL, hc⟩, hdome⟩, hall⟩, hdot⟩ := h
        have hLne : e.data.takeWhile isEmailChar ≠ [] :=
          (isEmpty_eq_false_iff _).mp hL
        have hsplit : e.data = e.data.takeWhile isEmailChar ++ (c :: dom) := by
          conv_lhs => rw [← List.takeWhile_append_dropWhile (p := isEmailChar) (l := e.data)]
          rw [hR]
        cases dom with
        | nil => exact absurd rfl ((isEmpty_eq_false_iff _).mp hdome)
        | cons d0 dom2 =>
            have hdot2 : ('.' : Char) ∈ dom2.dropLast := by
              have hh : ((d0 :: dom2).drop 1).dropLast.contains '.' = true := hdot
              simpa [List.elem_iff] using hh
            obtain ⟨s, t, hst⟩ := List.append_of_mem hdot2
            have hdom2ne : dom2 ≠ [] := by
              intro hnil
              rw [hnil] at hdot2
              simp at hdot2
            obtain ⟨d2, bl, hcat⟩ := (List.eq_nil_or_concat dom2).resolve_left hdom2ne
            rw [List.concat_eq_append] at hcat
            have hd2 : d2 = s ++ '.' :: t := by
              have hdl : dom2.dropLast = d2 := by rw [hcat]; exact List.dropLast_concat
              rw [← hdl, hst]
            have hdom2 : dom2 = (s ++ '.' :: t) ++ [bl] := by rw [hcat, hd2]
            refine ⟨e.data.takeWhile isEmailChar, d0 :: s, t ++ [bl],
              hLne, by simp, by simp, fun x hx => List.mem_takeWhile_imp hx, ?_, ?_, ?_⟩
            · intro x hx
              rcases List.mem_cons.mp hx with h0 | hs
              · exact hall x (by rw [h0]; exact List.mem_cons_self _ _)
              · refine hall x (List.mem_cons_of_mem _ ?_)
                rw [hdom2]
                exact List.mem_append_left _ (List.mem_append_left _ hs)
            · intro x hx
              rcases List.mem_append.mp hx with ht | hlst
              · refine hall x (List.mem_cons_of_mem _ ?_)
                rw [hdom2]
                exact List.mem_append_left _
                  (List.mem_append_right _ (List.mem_cons_of_mem _ ht))
              · refine hall x (List.mem_cons_of_mem _ ?_)
                rw [hdom2]
                exact List.mem_append_right _ hlst
            · conv_lhs => rw [hsplit]
              rw [hc, hdom2]
              simp
  · rintro ⟨locl, a, b, hlne, hane, hbne, hlall, haall, hball, hdata⟩
    have hsp := takeWhile_dropWhile_split isEmailChar locl '@' (a ++ '.' :: b)
      hlall isEmailChar_false_at
    unfold isValidEmail
    rw [hdata, hsp.2, hsp.1]
    simp only [Bool.and_eq_true, bnot_eq_true, beq_iff_eq, List.all_eq_true]
    obtain ⟨b2, bl, hb⟩ := (List.eq_nil_or_concat b).resolve_left hbne
    rw [List.concat_eq_append] at hb
    cases a with
    | nil => exact absurd rfl hane
    | cons a0 a2 =>
        refine ⟨⟨⟨⟨(isEmpty_eq_false_iff _).mpr hlne, trivial⟩,
          (isEmpty_eq_false_iff _).mpr (by simp)⟩, ?_⟩, ?_⟩
        · intro x hx
          rcases List.mem_append.mp hx with hxa | hxb
          · exact haall x hxa
          · rcases List.mem_cons.mp hxb with h0 | hs
            · rw [h0]; exact isEmailChar_dot
            · exact hball x hs
        · have hshape : ((a0 :: a2 ++ '.' :: b).drop 1).dropLast
              = a2 ++ '.' :: b2 := by
            rw [hb]
            simp only [List.cons_append, List.drop_succ_cons, List.drop_zero]
            rw [show a2 ++ '.' :: (b2 ++ [bl]) = (a2 ++ '.' :: b2) ++ [bl] by simp]
            exact List.dropLast_concat
          rw [hshape]
          simp [List.elem_iff]

/-- A valid email contains no whitespace character. -/
theorem isValidEmail_no_ws {e : String} (h : isValidEmail e = true) :
    ∀ c ∈ e.data, isJsWs c = false := by
  obtain ⟨locl, a, b, _, _, _, hlall, haall, hball, hdata⟩ :=
    (isValidEmail_iff e).mp h
  intro c hc
  rw [hdata] at hc
  rcases List.mem_append.mp hc with hl | hr
  · exact isEmailChar_not_ws (hlall c hl)
  · rcases List.mem_cons.mp hr with h0 | hr2
    · rw [h0]; decide
    · rcases List.mem_append.mp hr2 with ha | hb2
      · exact isEmailChar_not_ws (haall c ha)
      · rcases List.mem_cons.mp hb2 with h0 | hb3
        · rw [h0]; decide
        · exact isEmailChar_not_ws (hball c hb3)

/-- A string containing a whitespace character fails the email test. -/
theorem ws_not_validEmail {e : String} {c : Char} (hc : c ∈ e.data)
    (hw : isJsWs c = true) : isValidEmail e = false := by
  rw [Bool.eq_false_iff]
  intro hv
  rw [isValidEmail_no_ws hv c hc] at hw
  cases hw

/-! Facts about the `LIKE` matcher and the sorted select. -/

theorem likeMatch_pct (ps s : List Char) :
    likeMatch ('%' :: ps) s = s.tails.any (fun t => likeMatch ps t) := by
  conv_lhs => rw [likeMatch.eq_def]
  exact if_pos rfl

theorem likeMatch_plain_nil {p : Char} (hp1 : p ≠ '%')
    (ps : List Char) : likeMatch (p :: ps) [] = false := by
  conv_lhs => rw [likeMatch.eq_def]
  exact if_neg hp1

theorem likeMatch_plain_cons {p : Char} (hp1 : p ≠ '%') (hp3 : p ≠ '\\')
    (ps : List Char) (c : Char) (s2 : List Char) :
    likeMatch (p :: ps) (c :: s2) =
      ((if p = '_' then true else p == c) && likeMatch ps s2) := by
  conv_lhs => rw [likeMatch.eq_def]
  show (if p = '%' then ((c :: s2).tails.any (fun t => likeMatch ps t))
    else if p = '\\' then
      (match ps with
       | q :: ps2 => q == c && likeMatch ps2 s2
       | [] => false)
    else (if p = '_' then true else p == c) && likeMatch ps s2) = _
  rw [if_neg hp1, if_neg hp3]

theorem likeMatch_plain_append_pct :
    ∀ f : List Char, (∀ c ∈ f, plainChar c = true) →
      ∀ t, likeMatch (f ++ ['%']) t = f.isPrefixOf t := by
  intro f
  induction f with
  | nil =>
      intro _ t
      rw [List.nil_append, likeMatch_pct,
        show (([] : List Char).isPrefixOf t) = true from by cases t <;> rfl]
      exact List.any_eq_true.mpr
        ⟨[], (List.mem_tails _ _).mpr List.nil_suffix, rfl⟩
  | cons c f ih =>
      intro hf t
      have hc := hf c (List.mem_cons_self c f)
      unfold plainChar at hc
      rw [Bool.and_eq_true, Bool.and_eq_true] at hc
      obtain ⟨⟨h1, h2⟩, h3⟩ := hc
      rw [bne_iff_ne] at h1 h2 h3
      have ihf := ih (fun x hx => hf x (List.mem_cons_of_mem c hx))
      cases t with
      | nil => rw [List.cons_append, likeMatch_plain_nil h1]; rfl
      | cons c2 t2 =>
          rw [List.cons_append, likeMatch_plain_cons h1 h3, if_neg h2, ihf t2]
          rfl

/-- On wildcard-free needles, the handler's `LIKE '%f%'` pattern is exactly
the substring test. -/
theorem likeMatch_substring {f : List Char} (hf : ∀ c ∈ f, plainChar c = true)
    (s : List Char) :
    likeMatch ('%' :: (f ++ ['%'])) s = containsSub s f := by
  rw [likeMatch_pct]
  unfold containsSub
  congr 1
  funext t
  exact likeMatch_plain_append_pct f hf t

theorem containsSub_iff (hay needle : List Char) :
    containsSub hay needle = true ↔ needle <:+: hay := by
  unfold containsSub
  rw [List.any_eq_true]
  constructor
  · rintro ⟨t, ht, hpre⟩
    exact List.infix_iff_prefix_suffix.mpr
      ⟨t, List.isPrefixOf_iff_prefix.mp hpre, (List.mem_tails _ _).mp ht⟩
  · intro h
    obtain ⟨t, h1, h2⟩ := List.infix_iff_prefix_suffix.mp h
    exact ⟨t, (List.mem_tails _ _).mpr h2, List.isPrefixOf_iff_prefix.mpr h1⟩

theorem sortById_perm (l : List Record) : (sortById l).Perm l :=
  List.perm_insertionSort recLe l

theorem sortById_sorted (l : List Record) : List.Sorted recLe (sortById l) :=
  List.sorted_insertionSort recLe l

/-! Characterization of the readiness loop. -/

theorem range_map_shift (i k : Nat) :
    (i + 1) :: (List.range k).map (fun j => i + 1 + j + 1)
      = (List.range (k + 1)).map (fun j => i + j + 1) := by
  rw [List.range_succ_eq_map, List.map_cons, List.map_map]
  congr 1
  exact List.map_congr_left (fun a _ => by simp [Function.comp]; omega)

theorem waitLoop_all_fail (probe : Nat → Bool) (delayMs : Nat) :
    ∀ fuel i, (∀ j, j < fuel → probe (i + j) = false) →
      waitLoop probe delayMs i fuel =
        ⟨false, none, fuel, (List.range fuel).map (fun j => i + j + 1),
         List.replicate fuel delayMs⟩ := by
  intro fuel
  induction fuel with
  | zero => intro i _; rfl
  | succ fuel ih =>
      intro i h
      have h0 : probe i = false := by simpa using h 0 (Nat.succ_pos _)
      have hrest : ∀ j, j < fuel → probe (i + 1 + j) = false := by
        intro j hj
        have := h (j + 1) (by omega)
        rwa [show i + (j + 1) = i + 1 + j from by omega] at this
      simp only [waitLoop, h0, Bool.false_eq_true, if_false, ih (i + 1) hrest]
      rw [range_map_shift, List.replicate_succ]

theorem waitLoop_success (probe : Nat → Bool) (delayMs : Nat) :
    ∀ fuel i k, k < fuel → probe (i + k) = true →
      (∀ j, j < k → probe (i + j) = false) →
      waitLoop probe delayMs i fuel =
        ⟨true, some (i + k), k + 1, (List.range k).map (fun j => i + j + 1),
         List.replicate k delayMs⟩ := by
  intro fuel
  induction fuel with
  | zero => intro i k hk _ _; exact absurd hk (Nat.not_lt_zero k)
  | succ fuel ih =>
      intro i k hk hpk hprev
      cases k with
      | zero =>
          have h0 : probe i = true := by simpa using hpk
          simp [waitLoop, h0]
      | succ k =>
          have h0 : probe i = false := by simpa using hprev 0 (Nat.succ_pos _)
          have hpk2 : probe (i + 1 + k) = true := by
            rwa [show i + 1 + k = i + (k + 1) from by omega]
          have hprev2 : ∀ j, j < k → probe (i + 1 + j) = false := by
            intro j hj
            have := hprev (j + 1) (by omega)
            rwa [show i + (j + 1) = i + 1 + j from by omega] at this
          simp only [waitLoop, h0, Bool.false_eq_true, if_false,
            ih (i + 1) k (by omega) hpk2 hprev2]
          rw [range_map_shift, List.replicate_succ,
            show i + 1 + k = i + (k + 1) from by omega]

theorem waitLoop_attempts_le (probe : Nat → Bool) (delayMs : Nat) :
    ∀ fuel i, (waitLoop probe delayMs i fuel).attempts ≤ fuel := by
  intro fuel
  induction fuel with
  | zero => intro i; exact Nat.le_refl 0
  | succ fuel ih =>
      intro i
      by_cases h0 : probe i = true
      · simp [waitLoop, h0]
      · have h0f : probe i = false := Bool.eq_false_iff.mpr h0
        simp only [waitLoop, h0f, Bool.false_eq_true, if_false]
        exact Nat.succ_le_succ (ih (i + 1))

theorem waitLoop_ready_iff (probe : Nat → Bool) (delayMs : Nat) :
    ∀ fuel i, (waitLoop probe delayMs i fuel).ready = true ↔
      ∃ j, j < fuel ∧ probe (i + j) = true := by
  intro fuel
  induction fuel with
  | zero =>
      intro i
      simp [waitLoop]
  | succ fuel ih =>
      intro i
      by_cases h0 : probe i = true
      · constructor
        · intro _
          exact ⟨0, Nat.succ_pos _, by simpa using h0⟩
        · intro _
          simp [waitLoop, h0]
      · have h0f : probe i = false := Bool.eq_false_iff.mpr h0
        simp only [waitLoop, h0f, Bool.false_eq_true, if_false]
        rw [ih (i + 1)]
        constructor
        · rintro ⟨j, hj, hp⟩
          exact ⟨j + 1, by omega, by
            rwa [show i + (j + 1) = i + 1 + j from by omega]⟩
        · rintro ⟨j, hj, hp⟩
          cases j with
          | zero => rw [Nat.add_zero] at hp; exact absurd hp h0
          | succ j =>
              exact ⟨j, by omega, by
                rwa [show i + 1 + j = i + (j + 1) from by omega]⟩

/-! Handler-level helper lemmas. -/

theorem string_length_eq_zero {s : String} (h : s.length = 0) : s = "" :=
  String.ext (List.length_eq_zero.mp h)

/-- Unfolding of `createUser` when all three validation checks pass. -/
theorem createUser_checks_pass {req : CreateUserRequest} (hn : req.name ≠ "")
    (he : req.email ≠ "") (ht : jsTrim req.name ≠ "")
    (hv : isValidEmail req.email = true) (db : DB) (oracle : StoreOracle) :
    createUser req db oracle =
      match dbInsert db (jsTrim req.name) (jsLower req.email) oracle with
      | .ok (r, db2) => (.ok r, db2)
      | .error code =>
          if code == "23505" then
            (.error (.alreadyExists "User with this email already exists"), db)
          else
            (.error (.internal "Failed to create user"), db) := by
  unfold createUser
  rw [if_neg (by
    rw [Bool.or_eq_false_iff.mpr
      ⟨beq_eq_false_iff_ne.mpr hn, beq_eq_false_iff_ne.mpr he⟩]
    exact Bool.false_ne_true)]
  rw [if_neg (by
    intro hz
    exact ht (string_length_eq_zero (beq_iff_eq.mp hz)))]
  rw [if_neg (by rw [hv]; simp)]

/-! Claim theorems. -/

/-- C1.  CreateUser checks its three preconditions in order with first
failure winning: absent/empty name or email gives
`InvalidArgument "All fields are required"`; otherwise a name trimming to
empty gives `InvalidArgument "Name cannot be empty"`; otherwise an email not
matching the anchored regular expression gives
`InvalidArgument "Invalid email format"`; when all three preconditions hold
no `InvalidArgument` error is returned. -/
theorem createUser_precondition_order (req : CreateUserRequest) (db : DB)
    (oracle : StoreOracle) :
    ((req.name = "" ∨ req.email = "") →
      createUser req db oracle =
        (.error (.invalidArgument "All fields are required"), db)) ∧
    (req.name ≠ "" → req.email ≠ "" → jsTrim req.name = "" →
      createUser req db oracle =
        (.error (.invalidArgument "Name cannot be empty"), db)) ∧
    (req.name ≠ "" → req.email ≠ "" → jsTrim req.name ≠ "" →
      ¬ specEmailShape req.email →
      createUser req db oracle =
        (.error (.invalidArgument "Invalid email format"), db)) ∧
    (req.name ≠ "" → req.email ≠ "" → jsTrim req.name ≠ "" →
      specEmailShape req.email →
      ∀ m, (createUser req db oracle).1 ≠ .error (.invalidArgument m)) := by
  refine ⟨?_, ?_, ?_, ?_⟩
  · intro h
    unfold createUser
    rw [if_pos (by rcases h with h | h <;> simp [h])]
  · intro hn he ht
    unfold createUser
    rw [if_neg (by
      rw [Bool.or_eq_false_iff.mpr
        ⟨beq_eq_false_iff_ne.mpr hn, beq_eq_false_iff_ne.mpr he⟩]
      exact Bool.false_ne_true)]
    rw [if_pos (by rw [ht]; rfl)]
  · intro hn he ht hshape
    have hv : isValidEmail req.email = false := by
      rw [Bool.eq_false_iff]
      intro hvt
      exact hshape ((isValidEmail_iff req.email).mp hvt)
    unfold createUser
    rw [if_neg (by
      rw [Bool.or_eq_false_iff.mpr
        ⟨beq_eq_false_iff_ne.mpr hn, beq_eq_false_iff_ne.mpr he⟩]
      exact Bool.false_ne_true)]
    rw [if_neg (by
      intro hz
      exact ht (string_length_eq_zero (beq_iff_eq.mp hz)))]
    rw [if_pos (by rw [hv]; rfl)]
  · intro hn he ht hshape m
    have hv : isValidEmail req.email = true := (isValidEmail_iff req.email).mpr hshape
    rw [createUser_checks_pass hn he ht hv]
    cases hins : dbInsert db (jsTrim req.name) (jsLower req.email) oracle with
    | ok v => cases v with | mk r db2 => simp
    | error code =>
        by_cases hc : (code == "23505") = true
        · simp [hc]
        · simp [Bool.eq_false_iff.mpr hc]

/-- C1 witness: a request with empty name gets the first error at a
concrete input. -/
theorem createUser_precondition_order_witness :
    createUser ⟨"", "a@b.c"⟩ DB.empty none =
      (.error (.invalidArgument "All fields are required"), DB.empty) :=
  (createUser_precondition_order ⟨"", "a@b.c"⟩ DB.empty none).1 (Or.inl rfl)

/-- C2.  For every valid request whose lowercased email is not stored yet,
CreateUser succeeds, returning a record with the store-assigned id, the
trimmed name and the lowercased email, and appends exactly that record. -/
theorem createUser_success_spec (req : CreateUserRequest) (db : DB)
    (hn : req.name ≠ "") (he : req.email ≠ "") (ht : jsTrim req.name ≠ "")
    (hv : isValidEmail req.email = true)
    (hu : ∀ r ∈ db.rows, r.email ≠ jsLower req.email) :
    createUser req db none =
      (.ok ⟨db.nextId, jsTrim req.name, jsLower req.email⟩,
       ⟨db.rows ++ [⟨db.nextId, jsTrim req.name, jsLower req.email⟩],
        db.nextId + 1⟩) := by
  rw [createUser_checks_pass hn he ht hv]
  have hins : dbInsert db (jsTrim req.name) (jsLower req.email) none =
      .ok (⟨db.nextId, jsTrim req.name, jsLower req.email⟩,
        ⟨db.rows ++ [⟨db.nextId, jsTrim req.name, jsLower req.email⟩],
         db.nextId + 1⟩) := by
    unfold dbInsert
    rw [if_neg (by
      intro hany
      obtain ⟨r, hr, hrb⟩ := List.any_eq_true.mp hany
      exact hu r hr (beq_iff_eq.mp hrb))]
  rw [hins]

/-- C2 witness at a concrete request and store. -/
theorem createUser_success_spec_witness :
    createUser ⟨" Ana ", "A@B.Co"⟩ DB.empty none =
      (.ok ⟨1, "Ana", "a@b.co"⟩, ⟨[⟨1, "Ana", "a@b.co"⟩], 2⟩) := by
  have h := createUser_success_spec ⟨" Ana ", "A@B.Co"⟩ DB.empty
    (by decide) (by decide) (by decide) (by decide)
    (by intro r hr; cases hr)
  rw [h]
  rfl

/-- Unfolding of `createUser` when the truthiness check fails. -/
theorem createUser_err_fields {req : CreateUserRequest}
    (h : req.name = "" ∨ req.email = "") (db : DB) (oracle : StoreOracle) :
    createUser req db oracle =
      (.error (.invalidArgument "All fields are required"), db) := by
  unfold createUser
  rw [if_pos (by rcases h with h | h <;> simp [h])]

/-- Unfolding of `createUser` when the trimmed name is empty. -/
theorem createUser_err_name {req : CreateUserRequest} (hn : req.name ≠ "")
    (he : req.email ≠ "") (ht : jsTrim req.name = "") (db : DB)
    (oracle : StoreOracle) :
    createUser req db oracle =
      (.error (.invalidArgument "Name cannot be empty"), db) := by
  unfold createUser
  rw [if_neg (by
    rw [Bool.or_eq_false_iff.mpr
      ⟨beq_eq_false_iff_ne.mpr hn, beq_eq_false_iff_ne.mpr he⟩]
    exact Bool.false_ne_true)]
  rw [if_pos (by rw [ht]; rfl)]

/-- Unfolding of `createUser` when the email fails the regular expression. -/
theorem createUser_err_email {req : CreateUserRequest} (hn : req.name ≠ "")
    (he : req.email ≠ "") (ht : jsTrim req.name ≠ "")
    (hv : isValidEmail req.email = false) (db : DB) (oracle : StoreOracle) :
    createUser req db oracle =
      (.error (.invalidArgument "Invalid email format"), db) := by
  unfold createUser
  rw [if_neg (by
    rw [Bool.or_eq_false_iff.mpr
      ⟨beq_eq_false_iff_ne.mpr hn, beq_eq_false_iff_ne.mpr he⟩]
    exact Bool.false_ne_true)]
  rw [if_neg (by
    intro hz
    exact ht (string_length_eq_zero (beq_iff_eq.mp hz)))]
  rw [if_pos (by rw [hv]; rfl)]

/-- C5.  DeleteUser rejects id 0 with `InvalidArgument "User ID to
required"` leaving the store untouched; a nonzero id naming no record gives
`NotFound` with the id in the message and the store unchanged; a nonzero id
naming a record removes it and returns the confirmation message. -/
theorem deleteUser_spec (db : DB) (i : Int) (oracle : StoreOracle) :
    (deleteUser ⟨0⟩ db oracle =
      (.error (.invalidArgument "User ID is required"), db)) ∧
    (i ≠ 0 → (∀ r ∈ db.rows, r.id ≠ i) →
      deleteUser ⟨i⟩ db none =
        (.error (.notFound ("User with ID " ++ toString i ++ " not found")),
         db)) ∧
    (i ≠ 0 → (∃ r ∈ db.rows, r.id = i) →
      deleteUser ⟨i⟩ db none =
        (.ok ⟨true, "User with ID " ++ toString i ++ " successfully deleted"⟩,
         ⟨db.rows.filter (fun r => !(r.id == i)), db.nextId⟩)) := by
  obtain ⟨rows, nid⟩ := db
  refine ⟨?_, ?_, ?_⟩
  · unfold deleteUser
    rw [if_pos (by decide)]
  · intro hi hnone
    have hany : rows.any (fun r => r.id == i) = false := by
      rw [Bool.eq_false_iff]
      intro hT
      obtain ⟨r, hr, hb⟩ := List.any_eq_true.mp hT
      exact hnone r hr (beq_iff_eq.mp hb)
    have hfilter : rows.filter (fun r => !(r.id == i)) = rows :=
      List.filter_eq_self.mpr
        (fun r hr => bnot_eq_true.mpr (beq_eq_false_iff_ne.mpr (hnone r hr)))
    unfold deleteUser
    rw [if_neg (by intro hz; exact hi (beq_iff_eq.mp hz))]
    simp only [dbDelete, hany, hfilter]
    rfl
  · intro hi hex
    obtain ⟨r, hr, hre⟩ := hex
    have hany : rows.any (fun r => r.id == i) = true :=
      List.any_eq_true.mpr ⟨r, hr, beq_iff_eq.mpr hre⟩
    unfold deleteUser
    rw [if_neg (by intro hz; exact hi (beq_iff_eq.mp hz))]
    simp only [dbDelete, hany]
    rfl

/-- C5 witness: deleting an existing record succeeds at a concrete input. -/
theorem deleteUser_spec_witness :
    deleteUser ⟨1⟩ ⟨[⟨1, "Ana", "a@b.c"⟩], 2⟩ none =
      (.ok ⟨true, "User with ID 1 successfully deleted"⟩, ⟨[], 2⟩) := by
  have h := (deleteUser_spec ⟨[⟨1, "Ana", "a@b.c"⟩], 2⟩ 1 none).2.2
    (by decide) ⟨⟨1, "Ana", "a@b.c"⟩, List.mem_singleton.mpr rfl, rfl⟩
  rw [h]
  rfl

/-- C9.  DeleteUser's presence precondition passes for every nonzero id,
negative ids included: the result is never `InvalidArgument`, and a negative
id naming no record yields `NotFound`. -/
theorem deleteUser_nonzero_id_spec (db : DB) (oracle : StoreOracle) (i : Int)
    (hi : i ≠ 0) :
    (∀ m, (deleteUser ⟨i⟩ db oracle).1 ≠ .error (.invalidArgument m)) ∧
    (i < 0 → (∀ r ∈ db.rows, r.id ≠ i) →
      deleteUser ⟨i⟩ db none =
        (.error (.notFound ("User with ID " ++ toString i ++ " not found")),
         db)) := by
  obtain ⟨rows, nid⟩ := db
  constructor
  · intro m
    unfold deleteUser
    rw [if_neg (by intro hz; exact hi (beq_iff_eq.mp hz))]
    cases oracle with
    | some code => simp [dbDelete]
    | none =>
        simp only [dbDelete]
        by_cases hany : rows.any (fun r => r.id == i) = true
        · simp [hany]
        · simp [Bool.eq_false_iff.mpr hany]
  · intro _ hnone
    have hany : rows.any (fun r => r.id == i) = false := by
      rw [Bool.eq_false_iff]
      intro hT
      obtain ⟨r, hr, hb⟩ := List.any_eq_true.mp hT
      exact hnone r hr (beq_iff_eq.mp hb)
    have hfilter : rows.filter (fun r => !(r.id == i)) = rows :=
      List.filter_eq_self.mpr
        (fun r hr => bnot_eq_true.mpr (beq_eq_false_iff_ne.mpr (hnone r hr)))
    unfold deleteUser
    rw [if_neg (by intro hz; exact hi (beq_iff_eq.mp hz))]
    simp only [dbDelete, hany, hfilter]
    rfl

/-- C9 witness: a negative id yields `NotFound`, not `InvalidArgument`. -/
theorem deleteUser_nonzero_id_spec_witness :
    deleteUser ⟨-5⟩ ⟨[⟨1, "Ana", "a@b.c"⟩], 2⟩ none =
      (.error (.notFound "User with ID -5 not found"),
       ⟨[⟨1, "Ana", "a@b.c"⟩], 2⟩) := by
  have h := (deleteUser_nonzero_id_spec ⟨[⟨1, "Ana", "a@b.c"⟩], 2⟩ none (-5)
    (by decide)).2 (by decide) (by decide)
  rw [h]
  rfl

/-- C6.  A raw store error never crosses the service boundary: under any
injected store failure, CreateUser (with validation passed and a
non-uniqueness code) answers `Internal "Failed to create user"`, GetUsers
answers `Internal "Failed to retrieve users"`, and DeleteUser (with a
nonzero id) answers `Internal "Failed to delete user"`; every handler
result is an `Except` of the closed four-kind `GrpcError` taxonomy. -/
theorem store_error_classification (db : DB) (c : String) :
    (∀ req : CreateUserRequest, req.name ≠ "" → req.email ≠ "" →
      jsTrim req.name ≠ "" → isValidEmail req.email = true → c ≠ "23505" →
      createUser req db (some c) =
        (.error (.internal "Failed to create user"), db)) ∧
    (∀ req : GetUsersRequest,
      getUsers req db (some c) =
        (.error (.internal "Failed to retrieve users"), db)) ∧
    (∀ i : Int, i ≠ 0 →
      deleteUser ⟨i⟩ db (some c) =
        (.error (.internal "Failed to delete user"), db)) := by
  refine ⟨?_, ?_, ?_⟩
  · intro req hn he ht hv hc
    rw [createUser_checks_pass hn he ht hv]
    simp only [dbInsert]
    rw [if_neg (by rw [beq_eq_false_iff_ne.mpr hc]; exact Bool.false_ne_true)]
  · intro req
    rfl
  · intro i hi
    unfold deleteUser
    rw [if_neg (by intro hz; exact hi (beq_iff_eq.mp hz))]
    rfl

/-- C6 witness: an injected connection failure surfaces as `Internal`. -/
theorem store_error_classification_witness :
    getUsers ⟨""⟩ DB.empty (some "ECONNREFUSED") =
      (.error (.internal "Failed to retrieve users"), DB.empty) :=
  (store_error_classification DB.empty "ECONNREFUSED").2.1 ⟨""⟩

/-- C7.  A CreateUser call that fails validation returns an
`InvalidArgument` error, leaves the store exactly as it was (same state,
same record count), and an identical second call gives the same outcome. -/
theorem createUser_validation_failure_noop (req : CreateUserRequest) (db : DB)
    (oracle : StoreOracle)
    (h : req.name = "" ∨ req.email = "" ∨ jsTrim req.name = "" ∨
      isValidEmail req.email = false) :
    (∃ m, (createUser req db oracle).1 = .error (.invalidArgument m)) ∧
    (createUser req db oracle).2 = db ∧
    (createUser req db oracle).2.rows.length = db.rows.length ∧
    createUser req ((createUser req db oracle).2) oracle =
      createUser req db oracle := by
  obtain ⟨m, hres⟩ :
      ∃ m, createUser req db oracle = (.error (.invalidArgument m), db) := by
    by_cases hn : req.name = ""
    · exact ⟨_, createUser_err_fields (Or.inl hn) db oracle⟩
    · by_cases he : req.email = ""
      · exact ⟨_, createUser_err_fields (Or.inr he) db oracle⟩
      · by_cases ht : jsTrim req.name = ""
        · exact ⟨_, createUser_err_name hn he ht db oracle⟩
        · have hv : isValidEmail req.email = false := by
            rcases h with h | h | h | h
            · exact absurd h hn
            · exact absurd h he
            · exact absurd h ht
            · exact h
          exact ⟨_, createUser_err_email hn he ht hv db oracle⟩
  refine ⟨⟨m, by rw [hres]⟩, by rw [hres], by rw [hres], ?_⟩
  rw [hres]
  exact hres

/-- C7 witness: a malformed email leaves the store empty and repeats. -/
theorem createUser_validation_failure_noop_witness :
    (createUser ⟨"Ana", "not-an-email"⟩ DB.empty none).2 = DB.empty :=
  (createUser_validation_failure_noop ⟨"Ana", "not-an-email"⟩ DB.empty none
    (Or.inr (Or.inr (Or.inr (by decide))))).2.1

/-- C8.  Each readiness loop makes at most its budgeted number of probes,
returns READY at the first successful probe (having logged the 1-based index
of every failed attempt and slept the fixed delay once per failure), and
when every probe in the budget fails it reports failure after exactly the
budget, upon which the owning process exits with status 1 (server after
`waitForDatabase(20, 1000)`, client after `waitForServer(client, 30, 1000)`). -/
theorem readiness_loop_spec (probe : Nat → Bool) (retries delayMs : Nat) :
    ((waitLoop probe delayMs 0 retries).attempts ≤ retries) ∧
    ((waitLoop probe delayMs 0 retries).ready = true ↔
      ∃ j, j < retries ∧ probe j = true) ∧
    (∀ k, k < retries → probe k = true → (∀ j, j < k → probe j = false) →
      waitLoop probe delayMs 0 retries =
        ⟨true, some k, k + 1, (List.range k).map (fun j => j + 1),
         List.replicate k delayMs⟩) ∧
    ((∀ j, j < retries → probe j = false) →
      waitLoop probe delayMs 0 retries =
        ⟨false, none, retries, (List.range retries).map (fun j => j + 1),
         List.replicate retries delayMs⟩) ∧
    (waitForDatabase probe retries delayMs = waitLoop probe delayMs 0 retries) ∧
    (waitForServer probe retries delayMs = waitLoop probe delayMs 0 retries) ∧
    ((waitForDatabase probe 20 1000).ready = false →
      serverStartupExitCode probe = some 1) ∧
    ((waitForServer probe 30 1000).ready = false →
      clientStartupExitCode probe = some 1) := by
  refine ⟨waitLoop_attempts_le probe delayMs retries 0, ?_, ?_, ?_, rfl, rfl, ?_, ?_⟩
  · rw [waitLoop_ready_iff probe delayMs retries 0]
    constructor
    · rintro ⟨j, hj, hp⟩
      exact ⟨j, hj, by simpa using hp⟩
    · rintro ⟨j, hj, hp⟩
      exact ⟨j, hj, by simpa using hp⟩
  · intro k hk hpk hprev
    have h := waitLoop_success probe delayMs retries 0 k hk (by simpa using hpk)
      (fun j hj => by simpa using hprev j hj)
    rw [h]
    simp only [Nat.zero_add]
  · intro hall
    have h := waitLoop_all_fail probe delayMs retries 0
      (fun j hj => by simpa using hall j hj)
    rw [h]
    simp only [Nat.zero_add]
  · intro hnr
    unfold serverStartupExitCode
    rw [if_neg (by rw [hnr]; exact Bool.false_ne_true)]
  · intro hnr
    unfold clientStartupExitCode
    rw [if_neg (by rw [hnr]; exact Bool.false_ne_true)]

/-- C8 witness: with the probe first succeeding at index 2 and a budget of
5, the loop is ready after 3 attempts, logging attempts 1 and 2 and
sleeping twice. -/
theorem readiness_loop_spec_witness :
    waitLoop (fun i => i == 2) 7 0 5 =
      ⟨true, some 2, 3, [1, 2], [7, 7]⟩ := by
  have h := (readiness_loop_spec (fun i => i == 2) 5 7).2.2.1 2
    (by decide) (by decide) (by decide)
  rw [h]
  rfl

/-- State left by `createUser`: either untouched, or (when validation
passed, the store worked and the lowercased email was fresh) extended by
exactly the new record. -/
theorem createUser_state (req : CreateUserRequest) (db : DB)
    (oracle : StoreOracle) :
    (createUser req db oracle).2 = db ∨
    ((∀ r ∈ db.rows, r.email ≠ jsLower req.email) ∧
      isValidEmail req.email = true ∧
      (createUser req db oracle).2 =
        ⟨db.rows ++ [⟨db.nextId, jsTrim req.name, jsLower req.email⟩],
         db.nextId + 1⟩) := by
  by_cases hn : req.name = ""
  · left; rw [createUser_err_fields (Or.inl hn) db oracle]
  by_cases he : req.email = ""
  · left; rw [createUser_err_fields (Or.inr he) db oracle]
  by_cases ht : jsTrim req.name = ""
  · left; rw [createUser_err_name hn he ht db oracle]
  by_cases hv : isValidEmail req.email = true
  · rw [createUser_checks_pass hn he ht hv]
    cases oracle with
    | some code =>
        left
        simp only [dbInsert]
        by_cases hc : (code == "23505") = true
        · simp [hc]
        · simp [Bool.eq_false_iff.mpr hc]
    | none =>
        by_cases hany : db.rows.any (fun r => r.email == jsLower req.email) = true
        · left
          simp [dbInsert, hany]
        · right
          have hfresh : ∀ r ∈ db.rows, r.email ≠ jsLower req.email := by
            intro r hr heq
            exact hany (List.any_eq_true.mpr ⟨r, hr, beq_iff_eq.mpr heq⟩)
          refine ⟨hfresh, hv, ?_⟩
          simp [dbInsert, Bool.eq_false_iff.mpr hany]
  · left
    rw [createUser_err_email hn he ht (Bool.eq_false_iff.mpr hv) db oracle]

/-- State left by `deleteUser`: either untouched or with the rows of the
requested id filtered out. -/
theorem deleteUser_state (req : DeleteUserRequest) (db : DB)
    (oracle : StoreOracle) :
    (deleteUser req db oracle).2 = db ∨
    (deleteUser req db oracle).2 =
      ⟨db.rows.filter (fun r => !(r.id == req.id)), db.nextId⟩ := by
  unfold deleteUser
  by_cases hz : (req.id == 0) = true
  · left; rw [if_pos hz]
  rw [if_neg hz]
  cases oracle with
  | some code => left; rfl
  | none =>
      right
      simp only [dbDelete]
      by_cases hany : db.rows.any (fun r => r.id == req.id) = true
      · simp [hany]
      · simp [Bool.eq_false_iff.mpr hany]

/-- GetUsers never changes the store state. -/
theorem getUsers_state (req : GetUsersRequest) (db : DB)
    (oracle : StoreOracle) : (getUsers req db oracle).2 = db := by
  cases oracle <;> rfl

/-- CreateUser keeps every stored email lower-case. -/
theorem createUser_preserves_lower (req : CreateUserRequest) (db : DB)
    (oracle : StoreOracle) (hl : EmailsLower db) :
    EmailsLower (createUser req db oracle).2 := by
  rcases createUser_state req db oracle with h | ⟨_, _, h⟩
  · rw [h]; exact hl
  · rw [h]
    intro r hr
    rcases List.mem_append.mp hr with hold | hnew
    · exact hl r hold
    · rw [List.mem_singleton.mp hnew]
      exact jsLower_jsLower req.email

/-- DeleteUser keeps every stored email lower-case. -/
theorem deleteUser_preserves_lower (req : DeleteUserRequest) (db : DB)
    (oracle : StoreOracle) (hl : EmailsLower db) :
    EmailsLower (deleteUser req db oracle).2 := by
  rcases deleteUser_state req db oracle with h | h
  · rw [h]; exact hl
  · rw [h]
    intro r hr
    exact hl r (List.mem_of_mem_filter hr)

/-- C3.  Case-insensitive uniqueness of live emails: it holds of the fresh
store, creating a record whose email matches a stored one up to letter case
fails with `AlreadyExists` (stored emails being lower-case), and every
operation preserves both the all-lower-case property and pairwise
case-insensitive distinctness of the live records. -/
theorem email_ci_unique_invariant (db : DB) (req : CreateUserRequest)
    (oracle : StoreOracle) :
    (EmailsLower DB.empty ∧ EmailsCIUnique DB.empty) ∧
    (EmailsLower db → (∃ r ∈ db.rows, jsLower req.email = jsLower r.email) →
      req.name ≠ "" → req.email ≠ "" → jsTrim req.name ≠ "" →
      isValidEmail req.email = true →
      createUser req db none =
        (.error (.alreadyExists "User with this email already exists"), db)) ∧
    (EmailsLower db → EmailsCIUnique db →
      EmailsLower (createUser req db oracle).2 ∧
        EmailsCIUnique (createUser req db oracle).2) ∧
    (∀ dreq : DeleteUserRequest, EmailsLower db → EmailsCIUnique db →
      EmailsLower (deleteUser dreq db oracle).2 ∧
        EmailsCIUnique (deleteUser dreq db oracle).2) ∧
    (∀ greq : GetUsersRequest, (getUsers greq db oracle).2 = db) := by
  refine ⟨⟨fun r hr => absurd hr (List.not_mem_nil r), List.Pairwise.nil⟩,
    ?_, ?_, ?_, fun greq => getUsers_state greq db oracle⟩
  · intro hl hex hn he ht hv
    obtain ⟨r, hr, hre⟩ := hex
    rw [createUser_checks_pass hn he ht hv]
    have hany : db.rows.any (fun x => x.email == jsLower req.email) = true := by
      refine List.any_eq_true.mpr ⟨r, hr, beq_iff_eq.mpr ?_⟩
      rw [← hl r hr, ← hre]
    simp [dbInsert, hany]
  · intro hl hu
    refine ⟨createUser_preserves_lower req db oracle hl, ?_⟩
    rcases createUser_state req db oracle with h | ⟨hfresh, _, h⟩
    · rw [h]; exact hu
    · rw [h]
      unfold EmailsCIUnique
      rw [List.pairwise_append]
      refine ⟨hu, List.pairwise_singleton _ _, ?_⟩
      intro a ha b hb
      rw [List.mem_singleton.mp hb]
      intro heq
      rw [jsLower_jsLower, hl a ha] at heq
      exact hfresh a ha heq
  · intro dreq hl hu
    refine ⟨deleteUser_preserves_lower dreq db oracle hl, ?_⟩
    rcases deleteUser_state dreq db oracle with h | h
    · rw [h]; exact hu
    · rw [h]
      exact List.Pairwise.sublist (List.filter_sublist db.rows) hu

/-- C3 witness: a second create differing only in letter case fails with
`AlreadyExists` on a concrete store. -/
theorem email_ci_unique_invariant_witness :
    createUser ⟨"Bob", "ANA@B.C"⟩ ⟨[⟨1, "Ana", "ana@b.c"⟩], 2⟩ none =
      (.error (.alreadyExists "User with this email already exists"),
       ⟨[⟨1, "Ana", "ana@b.c"⟩], 2⟩) :=
  (email_ci_unique_invariant ⟨[⟨1, "Ana", "ana@b.c"⟩], 2⟩ ⟨"Bob", "ANA@B.C"⟩
    none).2.1 (by intro r hr; rw [List.mem_singleton.mp hr]; rfl)
    ⟨⟨1, "Ana", "ana@b.c"⟩, List.mem_singleton.mpr rfl, by rfl⟩
    (by decide) (by decide) (by decide) (by decide)

/-- Lower-casing never creates a `LIKE` wildcard character. -/
theorem plainChar_toLower {c : Char}
    (hc : c ≠ '%' ∧ c ≠ '_' ∧ c ≠ '\\') :
    plainChar (Char.toLower c) = true := by
  unfold plainChar
  rcases toLower_cases c with h | ⟨h1, h2, h3⟩
  · rw [h]
    simp [bne_iff_ne, hc.1, hc.2.1, hc.2.2]
  · have hne : ∀ t : Char, t.toNat < 97 → Char.toLower c ≠ t := by
      intro t htn he
      rw [char_eq_iff_toNat] at he
      omega
    simp only [Bool.and_eq_true, bne_iff_ne, ne_eq]
    refine ⟨⟨hne '%' (by decide), hne '_' (by decide)⟩, hne '\\' (by decide)⟩

/-- C10.  The email is never trimmed: an otherwise-valid request whose email
has leading or trailing whitespace is rejected with
`InvalidArgument "Invalid email format"` (never trimmed and accepted), and
every operation preserves the invariant, true of the fresh store, that every
stored email is whitespace-free and fully lower-case. -/
theorem email_not_trimmed_spec (req : CreateUserRequest) (db : DB)
    (oracle : StoreOracle) :
    (req.name ≠ "" → jsTrim req.name ≠ "" →
      (∃ c, (req.email.data.head? = some c ∨ req.email.data.getLast? = some c) ∧
        isJsWs c = true) →
      createUser req db oracle =
        (.error (.invalidArgument "Invalid email format"), db)) ∧
    (EmailsNoWs db → EmailsNoWs (createUser req db oracle).2) ∧
    (∀ dreq : DeleteUserRequest,
      EmailsNoWs db → EmailsNoWs (deleteUser dreq db oracle).2) ∧
    (EmailsLower db → EmailsLower (createUser req db oracle).2) ∧
    (∀ dreq : DeleteUserRequest,
      EmailsLower db → EmailsLower (deleteUser dreq db oracle).2) ∧
    (EmailsNoWs DB.empty ∧ EmailsLower DB.empty) := by
  refine ⟨?_, ?_, ?_,
    fun hl => createUser_preserves_lower req db oracle hl,
    fun dreq hl => deleteUser_preserves_lower dreq db oracle hl,
    fun r hr => absurd hr (List.not_mem_nil r),
    fun r hr => absurd hr (List.not_mem_nil r)⟩
  · rintro hn ht ⟨c, hcp, hcw⟩
    have hmem : c ∈ req.email.data := by
      rcases hcp with h | h
      · exact List.mem_of_mem_head? (by rw [h]; rfl)
      · exact List.mem_of_mem_getLast? (by rw [h]; rfl)
    have he : req.email ≠ "" := by
      intro h
      rw [h] at hmem
      simp at hmem
    exact createUser_err_email hn he ht (ws_not_validEmail hmem hcw) db oracle
  · intro hws
    rcases createUser_state req db oracle with h | ⟨_, hv, h⟩
    · rw [h]; exact hws
    · rw [h]
      intro r hr
      rcases List.mem_append.mp hr with hold | hnew
      · exact hws r hold
      · rw [List.mem_singleton.mp hnew]
        intro c hc
        obtain ⟨c2, hc2, hcl⟩ := List.mem_map.mp hc
        rw [← hcl, isJsWs_toLower]
        exact isValidEmail_no_ws hv c2 hc2
  · intro dreq hws
    rcases deleteUser_state dreq db oracle with h | h
    · rw [h]; exact hws
    · rw [h]
      intro r hr
      exact hws r (List.mem_of_mem_filter hr)

/-- C10 witness: an email with a leading space is rejected as malformed at a
concrete input. -/
theorem email_not_trimmed_spec_witness :
    createUser ⟨"Ana", " a@b.c"⟩ DB.empty none =
      (.error (.invalidArgument "Invalid email format"), DB.empty) :=
  (email_not_trimmed_spec ⟨"Ana", " a@b.c"⟩ DB.empty none).1
    (by decide) (by decide) ⟨' ', Or.inl rfl, by decide⟩

/-- C4 counterexample: the non-blank filter "%" is interpolated into the SQL
`LIKE` pattern, so it matches the record named "Ana" although "Ana" does not
contain "%" as a (case-insensitive) substring — the claimed output would be
the empty list. -/
theorem getUsers_substring_claim_cex :
    getUsers ⟨"%"⟩ ⟨[⟨1, "Ana", "ana@b.c"⟩], 2⟩ none =
      (.ok [⟨1, "Ana", "ana@b.c"⟩], ⟨[⟨1, "Ana", "ana@b.c"⟩], 2⟩) ∧
    jsTrim "%" ≠ "" ∧
    ¬ specContainsCI "Ana" (jsTrim "%") := by
  refine ⟨rfl, by decide, ?_⟩
  unfold specContainsCI
  decide

/-- C4 (amended).  For every filter string whose trimmed form contains no
`LIKE` wildcard or escape character (`%`, `_`, backslash), GetUsers succeeds
without touching the store and returns exactly the records whose name
contains the trimmed filter as a case-insensitive substring, ordered by
ascending id (all records when the filter is absent or blank; an empty
result is success). -/
theorem getUsers_filter_spec (db : DB) (f : String)
    (hw : ∀ c ∈ (jsTrim f).data, c ≠ '%' ∧ c ≠ '_' ∧ c ≠ '\\') :
    ∃ out, getUsers ⟨f⟩ db none = (.ok out, db) ∧
      List.Sorted recLe out ∧
      out.Perm (if jsTrim f = "" then db.rows
        else db.rows.filter
          (fun r => containsSub (jsLower r.name).data (jsLower (jsTrim f)).data)) ∧
      (∀ r, r ∈ out ↔ r ∈ db.rows ∧
        (jsTrim f ≠ "" → specContainsCI r.name (jsTrim f))) := by
  by_cases hb : jsTrim f = ""
  · have hcond : ((f != "") && decide (0 < (jsTrim f).length)) = false := by
      by_cases hf : f = ""
      · simp [hf]
      · rw [hb]
        simp
    refine ⟨sortById db.rows, ?_, sortById_sorted _, ?_, ?_⟩
    · show getUsers ⟨f⟩ db none = _
      simp only [getUsers]
      rw [if_neg (by rw [hcond]; exact Bool.false_ne_true)]
      rfl
    · rw [if_pos hb]
      exact sortById_perm db.rows
    · intro r
      constructor
      · intro hr
        exact ⟨(sortById_perm db.rows).mem_iff.mp hr, fun hne => absurd hb hne⟩
      · rintro ⟨hr, _⟩
        exact (sortById_perm db.rows).mem_iff.mpr hr
  · have hf : f ≠ "" := by
      intro h
      rw [h] at hb
      exact hb rfl
    have hlen : 0 < (jsTrim f).length := by
      rcases Nat.eq_zero_or_pos (jsTrim f).length with h0 | h
      · exact absurd (string_length_eq_zero h0) hb
      · exact h
    have hcond : ((f != "") && decide (0 < (jsTrim f).length)) = true := by
      rw [Bool.and_eq_true]
      exact ⟨bne_iff_ne.mpr hf, decide_eq_true hlen⟩
    have hpat : (jsLower ("%" ++ jsTrim f ++ "%")).data
        = '%' :: ((jsLower (jsTrim f)).data ++ ['%']) := by
      show ((("%" ++ jsTrim f) ++ "%").data.map Char.toLower) = _
      rw [String.data_append, String.data_append, List.map_append,
        List.map_append]
      rfl
    have hfc : ∀ c ∈ (jsLower (jsTrim f)).data, plainChar c = true := by
      intro c hc
      obtain ⟨c2, hc2, hcl⟩ := List.mem_map.mp hc
      rw [← hcl]
      exact plainChar_toLower (hw c2 hc2)
    have hfilter : db.rows.filter
          (fun r => likeMatch (jsLower ("%" ++ jsTrim f ++ "%")).data
            (jsLower r.name).data)
        = db.rows.filter
          (fun r => containsSub (jsLower r.name).data (jsLower (jsTrim f)).data) := by
      apply List.filter_congr
      intro r _
      rw [hpat]
      exact likeMatch_substring hfc (jsLower r.name).data
    refine ⟨sortById (db.rows.filter
      (fun r => containsSub (jsLower r.name).data (jsLower (jsTrim f)).data)),
      ?_, sortById_sorted _, ?_, ?_⟩
    · show getUsers ⟨f⟩ db none = _
      simp only [getUsers]
      rw [if_pos hcond]
      show (Except.ok (sortById (db.rows.filter
        (fun r => likeMatch (jsLower ("%" ++ jsTrim f ++ "%")).data
          (jsLower r.name).data))), db) = _
      rw [hfilter]
    · rw [if_neg hb]
      exact sortById_perm _
    · intro r
      rw [(sortById_perm _).mem_iff, List.mem_filter]
      constructor
      · rintro ⟨hr, hcs⟩
        exact ⟨hr, fun _ => (containsSub_iff _ _).mp hcs⟩
      · rintro ⟨hr, him⟩
        exact ⟨hr, (containsSub_iff _ _).mpr (him hb)⟩

/-- C4 witness: the filter " nik " (wildcard-free) applied to a concrete
two-record store. -/
theorem getUsers_filter_spec_witness :
    ∃ out, getUsers ⟨" nik "⟩
        ⟨[⟨1, "Ana", "a@b.c"⟩, ⟨2, "Nikola", "n@b.c"⟩], 3⟩ none =
        (.ok out, ⟨[⟨1, "Ana", "a@b.c"⟩, ⟨2, "Nikola", "n@b.c"⟩], 3⟩) ∧
      List.Sorted recLe out ∧
      out.Perm (if jsTrim " nik " = ""
        then [⟨1, "Ana", "a@b.c"⟩, ⟨2, "Nikola", "n@b.c"⟩]
        else [⟨1, "Ana", "a@b.c"⟩, ⟨2, "Nikola", "n@b.c"⟩].filter
          (fun r => containsSub (jsLower r.name).data
            (jsLower (jsTrim " nik ")).data)) ∧
      (∀ r, r ∈ out ↔
        r ∈ [⟨1, "Ana", "a@b.c"⟩, ⟨2, "Nikola", "n@b.c"⟩] ∧
        (jsTrim " nik " ≠ "" → specContainsCI r.name (jsTrim " nik "))) :=
  getUsers_filter_spec ⟨[⟨1, "Ana", "a@b.c"⟩, ⟨2, "Nikola", "n@b.c"⟩], 3⟩
    " nik " (by decide)

end GrpcUser
